import Mathlib

/-!
Verification of the response-classification core of an IMAP client
(`src/parse.rs` of async-imap).

The record stream is modelled as a `List Response`; each extractor of the
source, written there over an async `Stream`, becomes a pure function over
that list which additionally returns, in order, the events it sent on the
unsolicited channel and (for the aggregate extractors, which can return
early) the suffix of the stream it never read.

Machine integers (`u32`) are modelled as `Nat`: the source performs no
arithmetic on them, so overflow never matters.
-/

namespace AsyncImap

/-- `imap_proto::Status` (subset used by `parse.rs`: only `Ok` is inspected). -/
inductive Status where
  | ok
  | no
  | bad
  deriving DecidableEq, Repr

/-- Session flags: `types.rs` is not under `src/`; `parse.rs` only ever builds
flags via `Flag::from(String)` and never inspects them, so a flag is modelled
as its source string. -/
structure Flag where
  raw : String
  deriving DecidableEq, Repr

/-- `Flag::from` as used in `parse.rs` (conversion from the wire string). -/
def Flag.ofString (s : String) : Flag := ⟨s⟩

/-- `imap_proto::ResponseCode` restricted to the variants `parse_mailbox`
distinguishes; every unrecognized code is collapsed into `other`, which the
source ignores via its wildcard arm. -/
inductive ResponseCode where
  | uidValidity (n : Nat)
  | uidNext (n : Nat)
  | unseen (n : Nat)
  | permanentFlags (flags : List String)
  | other
  deriving DecidableEq, Repr

/-- Status items of a `STATUS` response (`StatusAttribute` in the spec's data
model, a closed variant set). -/
inductive StatusAttribute where
  | messages (n : Nat)
  | uidNext (n : Nat)
  | uidValidity (n : Nat)
  | unseen (n : Nat)
  deriving DecidableEq, Repr

/-- `imap_proto::MailboxDatum`: exactly the five variants matched (exhaustively,
without a wildcard) by `parse_mailbox` in the source. -/
inductive MailboxDatum where
  | mexists (n : Nat)
  | recent (n : Nat)
  | flags (flags : List String)
  | list (flags : List String) (delimiter : Option String) (name : String)
  | status (mailbox : String) (status : List StatusAttribute)
  deriving DecidableEq, Repr

/-- `imap_proto::AttributeValue` restricted to the variants `parse_fetches`
distinguishes; anything else is `other` (the source's wildcard arm). -/
inductive AttributeValue where
  | flags (flags : List String)
  | uid (n : Nat)
  | rfc822Size (n : Nat)
  | other
  deriving DecidableEq, Repr

/-- `imap_proto::Response` (the tagged union of parsed forms of the spec's
data model, restricted to the shapes `parse.rs` distinguishes).
`done` is the terminal completion marker: its payload (tag, status) is never
interpreted by this core. A `ResponseData` of the source is this parsed form
plus raw bytes which no function of `parse.rs` reads, so the raw bytes are
dropped from the model. -/
inductive Response where
  | done (tag : String) (status : Status)
  | data (status : Status) (code : Option ResponseCode)
  | mailboxData (d : MailboxDatum)
  | fetch (num : Nat) (attrs : List AttributeValue)
  | expunge (id : Nat)
  | capabilities (caps : List String)
  | ids (ids : List Nat)
  deriving DecidableEq, Repr

/-- `UnsolicitedResponse` (the spec's `UnsolicitedEvent`, a closed variant
set): what the classification functions send on the unsolicited channel. -/
inductive UnsolicitedResponse where
  | status (mailbox : String) (attributes : List StatusAttribute)
  | recent (n : Nat)
  | mexists (n : Nat)
  | expunge (n : Nat)
  deriving DecidableEq, Repr

/-- `handle_unilateral` (`parse.rs` lines 318-345): classify one record as a
unilateral server response.  Returns the events sent on the channel (one for a
consumed record, none otherwise) and, when the record is not one of the four
unilateral shapes, the record itself, unchanged, for the caller to judge.
The `status` arm sends `attributes: Vec::new()` in the source (its decoded
status items are dropped there, marked `FIXME`), which the model reproduces. -/
def handle_unilateral (res : Response) : List UnsolicitedResponse × Option Response :=
  match res with
  | .mailboxData (.status mailbox _status) => ([.status mailbox []], none)
  | .mailboxData (.recent n) => ([.recent n], none)
  | .mailboxData (.mexists n) => ([.mexists n], none)
  | .expunge n => ([.expunge n], none)
  | res => ([], some res)

/-- The predicate of every extractor's `take_while` in the source: keep reading
until the terminal `Done` marker. -/
def notDone (r : Response) : Bool :=
  match r with
  | .done _ _ => false
  | _ => true

/-- The shared shape of the per-item extractors (`parse_names`,
`parse_fetches`, `parse_expunge`): `filter_map(take_while(stream, not Done),
step)` in the source, where `step` classifies one record into channel events
plus an optional output item.  Returns (events in send order, output items in
stream order). -/
def runStream {α : Type} (step : Response → List UnsolicitedResponse × Option α)
    (stream : List Response) : List UnsolicitedResponse × List α :=
  let recs := stream.takeWhile notDone
  ((recs.map (fun r => (step r).1)).flatten, recs.filterMap (fun r => (step r).2))

/-- `Name` (`types.rs` is not under `src/`): the three fields `parse_names`
constructs.  A `NameAttribute` is built by `NameAttribute::from(String)` and
never inspected in `parse.rs`, so it is modelled as its string. -/
structure Name where
  attributes : List String
  delimiter : Option String
  name : String
  deriving DecidableEq, Repr

/-- The per-record body of `parse_names` (`parse.rs` lines 42-68). -/
def names_step (resp : Response) : List UnsolicitedResponse × Option (Except Response Name) :=
  match resp with
  | .mailboxData (.list flags delimiter name) =>
    ([], some (.ok ⟨flags, delimiter, name⟩))
  | _ =>
    match handle_unilateral resp with
    | (evs, some resp') =>
      match resp' with
      | .fetch _ _ => (evs, none)
      | r => (evs, some (.error r))
    | (evs, none) => (evs, none)

/-- `parse_names` (`parse.rs` lines 31-70). -/
def parse_names (stream : List Response) :
    List UnsolicitedResponse × List (Except Response Name) :=
  runStream names_step stream

/-- `Fetch` (`types.rs` is not under `src/`): the five fields `parse_fetches`
constructs.  `fetch` is the retained attribute list. -/
structure Fetch where
  message : Nat
  flags : List Flag
  uid : Option Nat
  size : Option Nat
  fetch : List AttributeValue
  deriving DecidableEq, Repr

/-- The eager-extraction loop of `parse_fetches` (`parse.rs` lines 98-108):
fold the attribute list into the `flags`/`uid`/`size` fields. -/
def fetchEagerLoop (f : Fetch) : List AttributeValue → Fetch
  | [] => f
  | .flags fs :: rest =>
    fetchEagerLoop { f with flags := f.flags ++ fs.map Flag.ofString } rest
  | .uid u :: rest => fetchEagerLoop { f with uid := some u } rest
  | .rfc822Size sz :: rest => fetchEagerLoop { f with size := some sz } rest
  | .other :: rest => fetchEagerLoop f rest

/-- Construction of one `Fetch` value by `parse_fetches` (`parse.rs` lines
88-109).  The source initializes the retained attribute list to `Vec::new()`
(its `// FIXME: attrs.to_vec()` comment says what was intended) and then runs
the eager-extraction loop over `fetch.fetch` — that freshly-created empty
list, not `attrs`.  The model reproduces this faithfully. -/
def mkFetch (num : Nat) (_attrs : List AttributeValue) : Fetch :=
  let fetch : Fetch := { message := num, flags := [], uid := none, size := none, fetch := [] }
  fetchEagerLoop fetch fetch.fetch

/-- The per-record body of `parse_fetches` (`parse.rs` lines 83-119). -/
def fetches_step (resp : Response) : List UnsolicitedResponse × Option (Except Response Fetch) :=
  match resp with
  | .fetch num attrs => ([], some (.ok (mkFetch num attrs)))
  | _ =>
    match handle_unilateral resp with
    | (evs, some resp') =>
      match resp' with
      | .fetch _ _ => (evs, none)
      | r => (evs, some (.error r))
    | (evs, none) => (evs, none)

/-- `parse_fetches` (`parse.rs` lines 72-122). -/
def parse_fetches (stream : List Response) :
    List UnsolicitedResponse × List (Except Response Fetch) :=
  runStream fetches_step stream

/-- The per-record body of `parse_expunge` (`parse.rs` lines 135-149). -/
def expunge_step (resp : Response) : List UnsolicitedResponse × Option (Except Response Nat) :=
  match resp with
  | .expunge id => ([], some (.ok id))
  | _ =>
    match handle_unilateral resp with
    | (evs, some resp') =>
      match resp' with
      | .fetch _ _ => (evs, none)
      | r => (evs, some (.error r))
    | (evs, none) => (evs, none)

/-- `parse_expunge` (`parse.rs` lines 124-152). -/
def parse_expunge (stream : List Response) :
    List UnsolicitedResponse × List (Except Response Nat) :=
  runStream expunge_step stream

/-- Result of one aggregate-extractor call: the events sent on the channel (in
order), the returned value or the error the call aborted with, and the suffix
of the stream the call never read (the source's early `return Err(...)` leaves
the rest of the stream unconsumed). -/
structure AggOut (ε α : Type) where
  events : List UnsolicitedResponse
  result : Except ε α
  remaining : List Response
  deriving Repr

instance {ε α : Type} [DecidableEq ε] [DecidableEq α] : DecidableEq (Except ε α) :=
  fun x y =>
    match x, y with
    | .ok a, .ok b =>
      if h : a = b then isTrue (by rw [h]) else isFalse (fun hh => by cases hh; exact h rfl)
    | .error a, .error b =>
      if h : a = b then isTrue (by rw [h]) else isFalse (fun hh => by cases hh; exact h rfl)
    | .ok _, .error _ => isFalse (fun hh => by cases hh)
    | .error _, .ok _ => isFalse (fun hh => by cases hh)

/-- ASCII lowercasing of one character (`A`-`Z` shifted to `a`-`z`). -/
def lowerChar (c : Char) : Char :=
  if 'A' ≤ c ∧ c ≤ 'Z' then Char.ofNat (c.toNat + 32) else c

/-- Modelled from the spec: `Capability` and the `Capabilities` set live in
`types.rs`, which is not under `src/`.  The spec says equality/lookup of
capability tokens is case-insensitive and the set holds no duplicate tokens
after normalization, so a token's normal form is its ASCII lowercasing. -/
def capNorm (s : String) : String := ⟨s.data.map lowerChar⟩

/-- Modelled from the spec: insertion into the capability set
(`caps.insert(Capability::from(c))` in the source); a token equal to an
already-present one up to case is not added again. -/
def capInsert (caps : List String) (c : String) : List String :=
  if caps.any (fun x => capNorm x = capNorm c) then caps else caps ++ [c]

/-- Insertion of every token of one `CAPABILITY` record (the source's inner
`for c in cs` loop). -/
def capInsertAll (caps : List String) (cs : List String) : List String :=
  cs.foldl capInsert caps

/-- The loop of `parse_capabilities` (`parse.rs` lines 160-180) with the
accumulated set explicit. -/
def parse_capabilities_loop : List Response → List String → AggOut Response (List String)
  | [], caps => ⟨[], .ok caps, []⟩
  | r :: rest, caps =>
    match r with
    | .done _ _ => ⟨[], .ok caps, rest⟩
    | .capabilities cs => parse_capabilities_loop rest (capInsertAll caps cs)
    | r =>
      match handle_unilateral r with
      | (evs, some r') => ⟨evs, .error r', rest⟩
      | (evs, none) =>
        let out := parse_capabilities_loop rest caps
        ⟨evs ++ out.events, out.result, out.remaining⟩

/-- `parse_capabilities` (`parse.rs` lines 154-183): starts from the empty
set. -/
def parse_capabilities (stream : List Response) : AggOut Response (List String) :=
  parse_capabilities_loop stream []

/-- Insertion into the id set (`ids.insert(*c)` on a `HashSet<u32>` in the
source): duplicates collapse. -/
def idInsert (ids : List Nat) (n : Nat) : List Nat :=
  if n ∈ ids then ids else ids ++ [n]

/-- Insertion of every id of one `SEARCH` record (the source's inner
`for c in cs` loop). -/
def idInsertAll (ids : List Nat) (cs : List Nat) : List Nat :=
  cs.foldl idInsert ids

/-- The loop of `parse_ids` (`parse.rs` lines 291-311) with the accumulated
set explicit. -/
def parse_ids_loop : List Response → List Nat → AggOut Response (List Nat)
  | [], ids => ⟨[], .ok ids, []⟩
  | r :: rest, ids =>
    match r with
    | .done _ _ => ⟨[], .ok ids, rest⟩
    | .ids cs => parse_ids_loop rest (idInsertAll ids cs)
    | r =>
      match handle_unilateral r with
      | (evs, some r') => ⟨evs, .error r', rest⟩
      | (evs, none) =>
        let out := parse_ids_loop rest ids
        ⟨evs ++ out.events, out.result, out.remaining⟩

/-- `parse_ids` (`parse.rs` lines 285-314): starts from the empty set. -/
def parse_ids (stream : List Response) : AggOut Response (List Nat) :=
  parse_ids_loop stream []

/-- `Mailbox` (`types.rs` is not under `src/`): the fields `parse_mailbox`
updates, per the spec's `MailboxState` data model. -/
structure Mailbox where
  flags : List Flag
  mexists : Nat
  recent : Nat
  unseen : Option Nat
  permanent_flags : List Flag
  uid_next : Option Nat
  uid_validity : Option Nat
  deriving DecidableEq, Repr

/-- `Mailbox::default()`: counts zero, lists empty, optional fields absent. -/
def Mailbox.default : Mailbox := ⟨[], 0, 0, none, [], none, none⟩

/-- How a `parse_mailbox` call fails: `unexpected r` is the source's
`return Err(resp.parsed().into())` wildcard arm; `invariantViolation` is its
`unreachable!()` on a `Data` record whose status is not `Ok` (a panic, modelled
as a distinguished error). -/
inductive MailboxError where
  | unexpected (r : Response)
  | invariantViolation
  deriving DecidableEq, Repr

/-- The update of one `Data { status, code, .. }` record on the accumulating
mailbox (`parse.rs` lines 232-249): known response codes set their field,
anything else is ignored. -/
def mailboxApplyCode (mb : Mailbox) (code : Option ResponseCode) : Mailbox :=
  match code with
  | some (.uidValidity uid) => { mb with uid_validity := some uid }
  | some (.uidNext unext) => { mb with uid_next := some unext }
  | some (.unseen n) => { mb with unseen := some n }
  | some (.permanentFlags flags) =>
    { mb with permanent_flags := mb.permanent_flags ++ flags.map Flag.ofString }
  | _ => mb

/-- The loop of `parse_mailbox` (`parse.rs` lines 216-280) with the
accumulating mailbox explicit.  The `MailboxDatum::Status` arm sends
`attributes: Vec::new()` in the source (marked `FIXME`), reproduced here. -/
def parse_mailbox_loop : List Response → Mailbox → AggOut MailboxError Mailbox
  | [], mb => ⟨[], .ok mb, []⟩
  | r :: rest, mb =>
    match r with
    | .done _ _ => ⟨[], .ok mb, rest⟩
    | .data status code =>
      match status with
      | .ok => parse_mailbox_loop rest (mailboxApplyCode mb code)
      | _ => ⟨[], .error .invariantViolation, rest⟩
    | .mailboxData (.status mailbox _status) =>
      let out := parse_mailbox_loop rest mb
      ⟨UnsolicitedResponse.status mailbox [] :: out.events, out.result, out.remaining⟩
    | .mailboxData (.mexists e) => parse_mailbox_loop rest { mb with mexists := e }
    | .mailboxData (.recent n) => parse_mailbox_loop rest { mb with recent := n }
    | .mailboxData (.flags flags) =>
      parse_mailbox_loop rest { mb with flags := mb.flags ++ flags.map Flag.ofString }
    | .mailboxData (.list _ _ _) => parse_mailbox_loop rest mb
    | .expunge n =>
      let out := parse_mailbox_loop rest mb
      ⟨UnsolicitedResponse.expunge n :: out.events, out.result, out.remaining⟩
    | r => ⟨[], .error (.unexpected r), rest⟩

/-- `parse_mailbox` (`parse.rs` lines 210-283): starts from
`Mailbox::default()`. -/
def parse_mailbox (stream : List Response) : AggOut MailboxError Mailbox :=
  parse_mailbox_loop stream Mailbox.default

/-- The payload of the regex `^\+ (.*)\r\n` of `parse_authenticate_response`:
on the text after the literal `+ `, the capture group `(.*)` (where `.` matches
any character except a line feed) followed by `\r\n`.  The group is the text up
to the first line feed, which must be immediately preceded by a carriage
return; anything after that `\r\n` is unconstrained, the regex being anchored
only at the start. -/
def authPayload : List Char → Option (List Char)
  | [] => none
  | c :: rest =>
    if c = '\n' then none
    else if c = '\r' ∧ rest.head? = some '\n' then some []
    else (authPayload rest).map (c :: ·)

/-- The whole regex `^\\+ (.*)\\r\\n` of `parse_authenticate_response` on the
character sequence of the line: the literal `+ ` at the start, then the
captured payload. -/
def parse_auth_chars (line : List Char) : Option (List Char) :=
  match line with
  | c1 :: c2 :: rest => if c1 = '+' ∧ c2 = ' ' then authPayload rest else none
  | _ => none

/-- `parse_authenticate_response` (`parse.rs` lines 20-29): the error carries
the offending line (`ParseError::Authentication(line.to_string(), None)`). -/
def parse_authenticate_response (line : String) : Except String String :=
  match parse_auth_chars line.data with
  | some p => .ok ⟨p⟩
  | none => .error line


/-- The continuation-request grammar as the spec words it: the line is exactly
`+ <payload>\r\n`. -/
def continuationRequestGrammar (line payload : String) : Prop :=
  line = "+ " ++ payload ++ "\r\n"

/-! Shape predicates on records, used to state which arm of a source `match` a
record falls into. -/

/-- The record is a `List` mailbox datum. -/
def isListDatum : Response → Bool
  | .mailboxData (.list _ _ _) => true
  | _ => false

/-- The record is a `Fetch` response. -/
def isFetchResp : Response → Bool
  | .fetch _ _ => true
  | _ => false

/-- The record is an `Expunge` response. -/
def isExpungeResp : Response → Bool
  | .expunge _ => true
  | _ => false

/-- The record is a `Capabilities` response. -/
def isCapabilitiesResp : Response → Bool
  | .capabilities _ => true
  | _ => false

/-- The record is an `IDs` (search-result) response. -/
def isIdsResp : Response → Bool
  | .ids _ => true
  | _ => false

/-- The record is a `Data { status, code, .. }` response. -/
def isDataResp : Response → Bool
  | .data _ _ => true
  | _ => false

/-- The record is a `MailboxData` response (any datum variant). -/
def isMailboxDataResp : Response → Bool
  | .mailboxData _ => true
  | _ => false

/-- `handle_unilateral` consumes the record (one of the four unilateral
shapes). -/
def consumable (r : Response) : Bool := (handle_unilateral r).2.isNone

/-- `parse_mailbox` handles the record and continues its loop: an `Ok` status
line, any mailbox datum, or an expunge. -/
def mailboxHandles : Response → Bool
  | .data .ok _ => true
  | .mailboxData _ => true
  | .expunge _ => true
  | _ => false

/-! Helper lemmas. -/

theorem handle_unilateral_of_not_consumable {r : Response} (h : consumable r = false) :
    handle_unilateral r = ([], some r) := by
  cases r with
  | mailboxData d => cases d <;> simp_all [consumable, handle_unilateral]
  | _ => first | rfl | simp_all [consumable, handle_unilateral]

theorem takeWhile_append_all {α : Type} (p : α → Bool) (l₁ l₂ : List α)
    (h : ∀ x ∈ l₁, p x = true) :
    (l₁ ++ l₂).takeWhile p = l₁ ++ l₂.takeWhile p := by
  induction l₁ with
  | nil => simp
  | cons a l ih =>
    have ha : p a = true := h a (by simp)
    simp only [List.cons_append, List.takeWhile_cons, ha, if_true]
    rw [ih (fun x hx => h x (by simp [hx]))]

theorem runStream_append {α : Type} (step : Response → List UnsolicitedResponse × Option α)
    (pre l : List Response) (hpre : ∀ x ∈ pre, notDone x = true) :
    runStream step (pre ++ l)
      = ((runStream step pre).1 ++ (runStream step l).1,
         (runStream step pre).2 ++ (runStream step l).2) := by
  have h1 : pre.takeWhile notDone = pre := by
    have := takeWhile_append_all notDone pre [] hpre
    simpa using this
  simp only [runStream, takeWhile_append_all notDone pre l hpre, h1,
    List.map_append, List.filterMap_append, List.flatten_append]

theorem runStream_cons_of_notDone {α : Type}
    (step : Response → List UnsolicitedResponse × Option α)
    (r : Response) (rest : List Response) (hr : notDone r = true) :
    runStream step (r :: rest)
      = ((step r).1 ++ (runStream step rest).1,
         (step r).2.toList ++ (runStream step rest).2) := by
  cases h2 : (step r).2 <;>
    simp [runStream, List.takeWhile_cons, hr, List.filterMap_cons, h2]

theorem names_step_unconsumed {r : Response} (hlist : isListDatum r = false)
    (hcons : consumable r = false) :
    names_step r = ([], if isFetchResp r then none else some (Except.error r)) := by
  have h := handle_unilateral_of_not_consumable hcons
  cases r with
  | mailboxData d => cases d <;> simp_all [names_step, isListDatum, isFetchResp, handle_unilateral]
  | _ => simp_all [names_step, isFetchResp, handle_unilateral]

theorem expunge_step_unconsumed {r : Response} (hexp : isExpungeResp r = false)
    (hcons : consumable r = false) :
    expunge_step r = ([], if isFetchResp r then none else some (Except.error r)) := by
  have h := handle_unilateral_of_not_consumable hcons
  cases r with
  | mailboxData d =>
    cases d <;> simp_all [expunge_step, isExpungeResp, isFetchResp, handle_unilateral]
  | _ => simp_all [expunge_step, isExpungeResp, isFetchResp, handle_unilateral]

/-- C9: In the mailbox-listing extractor, every record before the terminal
marker that is not a `List` mailbox datum and is not consumed by the unilateral
classifier produces an error item at its position of the output sequence,
except that a `Fetch`-shaped such record is silently suppressed: no item, no
error, and (second conjunct) nothing sent to the sink for it. -/
theorem names_unexpected_error_at_position (pre rest : List Response) (r : Response)
    (hpre : ∀ x ∈ pre, notDone x = true) (hr : notDone r = true)
    (hlist : isListDatum r = false) (hcons : consumable r = false) :
    (parse_names (pre ++ r :: rest)).2
      = (parse_names pre).2 ++ (if isFetchResp r then [] else [Except.error r])
          ++ (parse_names rest).2
    ∧ (parse_names (pre ++ r :: rest)).1 = (parse_names pre).1 ++ (parse_names rest).1 := by
  have hstep := names_step_unconsumed hlist hcons
  have hsplit := runStream_append names_step pre (r :: rest) hpre
  have hone := runStream_cons_of_notDone names_step r rest hr
  rw [hstep] at hone
  by_cases hf : isFetchResp r = true
  · rw [hf] at hone
    simp only [if_true] at hone
    constructor <;> simp [parse_names, hsplit, hone, hf]
  · rw [Bool.not_eq_true] at hf
    rw [hf] at hone
    simp only [Bool.false_eq_true, if_false] at hone
    constructor <;> simp [parse_names, hsplit, hone, hf]

/-- C9 witness: a concrete stream `LIST`, `SEARCH 5` (unexpected, not
fetch-shaped), `42 FETCH` (unexpected, fetch-shaped, swallowed), completion. -/
theorem names_unexpected_error_at_position_witness :
    (parse_names [Response.mailboxData (MailboxDatum.list [] none "INBOX"),
        Response.ids [5], Response.fetch 42 [], Response.done "t" Status.ok]).2
      = (parse_names [Response.mailboxData (MailboxDatum.list [] none "INBOX")]).2
          ++ (if isFetchResp (Response.ids [5]) then [] else [Except.error (Response.ids [5])])
          ++ (parse_names [Response.fetch 42 [], Response.done "t" Status.ok]).2
    ∧ (parse_names [Response.mailboxData (MailboxDatum.list [] none "INBOX"),
        Response.ids [5], Response.fetch 42 [], Response.done "t" Status.ok]).1
      = (parse_names [Response.mailboxData (MailboxDatum.list [] none "INBOX")]).1
          ++ (parse_names [Response.fetch 42 [], Response.done "t" Status.ok]).1 :=
  names_unexpected_error_at_position
    [Response.mailboxData (MailboxDatum.list [] none "INBOX")]
    [Response.fetch 42 [], Response.done "t" Status.ok]
    (Response.ids [5])
    (by decide) (by decide) (by decide) (by decide)

/-- C10: The expunge-id extractor applies the same fetch-swallow special case:
a record that is not an `Expunge` record and is not consumed by the unilateral
classifier yields an error item at its position, except that a `Fetch`-shaped
such record is silently dropped — no output item, no error, and (second
conjunct) nothing sent to the sink for it. -/
theorem expunge_unexpected_error_at_position (pre rest : List Response) (r : Response)
    (hpre : ∀ x ∈ pre, notDone x = true) (hr : notDone r = true)
    (hexp : isExpungeResp r = false) (hcons : consumable r = false) :
    (parse_expunge (pre ++ r :: rest)).2
      = (parse_expunge pre).2 ++ (if isFetchResp r then [] else [Except.error r])
          ++ (parse_expunge rest).2
    ∧ (parse_expunge (pre ++ r :: rest)).1 = (parse_expunge pre).1 ++ (parse_expunge rest).1 := by
  have hstep := expunge_step_unconsumed hexp hcons
  have hsplit := runStream_append expunge_step pre (r :: rest) hpre
  have hone := runStream_cons_of_notDone expunge_step r rest hr
  rw [hstep] at hone
  by_cases hf : isFetchResp r = true
  · rw [hf] at hone
    simp only [if_true] at hone
    constructor <;> simp [parse_expunge, hsplit, hone, hf]
  · rw [Bool.not_eq_true] at hf
    rw [hf] at hone
    simp only [Bool.false_eq_true, if_false] at hone
    constructor <;> simp [parse_expunge, hsplit, hone, hf]

/-- C10 witness: a concrete stream `3 EXPUNGE`, `24 FETCH` (unexpected,
fetch-shaped, swallowed), completion; and the same with a `SEARCH` record in
place of the fetch, which yields an error item. -/
theorem expunge_unexpected_error_at_position_witness :
    ((parse_expunge [Response.expunge 3, Response.fetch 24 [],
        Response.done "t" Status.ok]).2
      = (parse_expunge [Response.expunge 3]).2
          ++ (if isFetchResp (Response.fetch 24 []) then []
              else [Except.error (Response.fetch 24 [])])
          ++ (parse_expunge [Response.done "t" Status.ok]).2)
    ∧ ((parse_expunge [Response.expunge 3, Response.fetch 24 [],
        Response.done "t" Status.ok]).1
      = (parse_expunge [Response.expunge 3]).1
          ++ (parse_expunge [Response.done "t" Status.ok]).1) :=
  expunge_unexpected_error_at_position [Response.expunge 3]
    [Response.done "t" Status.ok] (Response.fetch 24 [])
    (by decide) (by decide) (by decide) (by decide)

/-- C8: During mailbox-state accumulation, a `Status` mailbox datum and an
`Expunge` record are each forwarded to the unsolicited sink (one event,
prepended in encounter order) and the loop continues on the very same
accumulating `Mailbox` value — every field of this command's own state is left
unchanged, the record never being merged into it. -/
theorem mailbox_status_expunge_forwarded_frame (m : String) (s : List StatusAttribute)
    (n : Nat) (rest : List Response) (mb : Mailbox) :
    parse_mailbox_loop (Response.mailboxData (MailboxDatum.status m s) :: rest) mb
      = ⟨UnsolicitedResponse.status m [] :: (parse_mailbox_loop rest mb).events,
         (parse_mailbox_loop rest mb).result, (parse_mailbox_loop rest mb).remaining⟩
    ∧ parse_mailbox_loop (Response.expunge n :: rest) mb
      = ⟨UnsolicitedResponse.expunge n :: (parse_mailbox_loop rest mb).events,
         (parse_mailbox_loop rest mb).result, (parse_mailbox_loop rest mb).remaining⟩ :=
  ⟨rfl, rfl⟩

/-- C5: On a record stream consisting solely of one terminal completion
marker, every extractor returns successfully with an empty or default result
and sends nothing to the unsolicited sink. -/
theorem lone_completion_marker_defaults (tag : String) (st : Status) :
    parse_capabilities [Response.done tag st] = ⟨[], Except.ok [], []⟩
    ∧ parse_names [Response.done tag st] = ([], [])
    ∧ parse_fetches [Response.done tag st] = ([], [])
    ∧ parse_expunge [Response.done tag st] = ([], [])
    ∧ parse_ids [Response.done tag st] = ⟨[], Except.ok [], []⟩
    ∧ parse_mailbox [Response.done tag st] = ⟨[], Except.ok Mailbox.default, []⟩ :=
  ⟨rfl, rfl, rfl, rfl, rfl, rfl⟩

/-- C1 (code bug): on the concrete stream of the spec's scenario —
`* 37 FETCH (UID 74)`, `* 1 RECENT`, completion — the extractor does classify
the records correctly (one fetch item, one `RecentCount` event), but the
produced record has `uid = none` and an empty retained attribute list: the
source initializes the retained list to `Vec::new()` (`FIXME`) and runs the
eager-extraction loop over that empty list, so the `Uid` attribute never
reaches `uid` and `attrs` is not retained, contradicting the claim and the
repository's own tests. -/
theorem fetch_eager_fields_lost :
    parse_fetches [Response.fetch 37 [AttributeValue.uid 74],
        Response.mailboxData (MailboxDatum.recent 1), Response.done "a1" Status.ok]
      = ([UnsolicitedResponse.recent 1],
         [Except.ok { message := 37, flags := [], uid := none, size := none, fetch := [] }])
    ∧ (mkFetch 37 [AttributeValue.uid 74]).uid ≠ some 74
    ∧ (mkFetch 37 [AttributeValue.uid 74]).fetch ≠ [AttributeValue.uid 74] :=
  ⟨rfl, by decide, by decide⟩

/-- C2 (code bug): the unilateral classifier consumes a `Status` mailbox datum
and sends exactly one `StatusPush` event — but the event carries an empty
attribute list (`attributes: Vec::new()`, `FIXME` in the source), not the
decoded status items the claim and the repository's own tests require. -/
theorem status_push_attributes_dropped :
    handle_unilateral (Response.mailboxData (MailboxDatum.status "dev.github"
        [StatusAttribute.messages 10, StatusAttribute.uidNext 11,
         StatusAttribute.uidValidity 1408806928, StatusAttribute.unseen 0]))
      = ([UnsolicitedResponse.status "dev.github" []], none)
    ∧ UnsolicitedResponse.status "dev.github" []
        ≠ UnsolicitedResponse.status "dev.github"
            [StatusAttribute.messages 10, StatusAttribute.uidNext 11,
             StatusAttribute.uidValidity 1408806928, StatusAttribute.unseen 0] :=
  ⟨rfl, by decide⟩

/-! Aggregate extractors: abort on the first unexpected record. -/

theorem parse_capabilities_loop_caps_arm (cs : List String) (rest : List Response)
    (caps : List String) :
    parse_capabilities_loop (Response.capabilities cs :: rest) caps
      = parse_capabilities_loop rest (capInsertAll caps cs) := rfl

theorem parse_ids_loop_ids_arm (cs : List Nat) (rest : List Response) (ids : List Nat) :
    parse_ids_loop (Response.ids cs :: rest) ids
      = parse_ids_loop rest (idInsertAll ids cs) := rfl

theorem parse_capabilities_loop_unexpected (r : Response) (rest : List Response)
    (caps : List String) (hdone : notDone r = true)
    (hcap : isCapabilitiesResp r = false) (hcons : consumable r = false) :
    parse_capabilities_loop (r :: rest) caps = ⟨[], Except.error r, rest⟩ := by
  cases r with
  | done tag st => simp [notDone] at hdone
  | capabilities cs => simp [isCapabilitiesResp] at hcap
  | expunge n => simp [consumable, handle_unilateral] at hcons
  | mailboxData d =>
    cases d <;> first | rfl | simp [consumable, handle_unilateral] at hcons
  | data st c => rfl
  | fetch n attrs => rfl
  | ids l => rfl

theorem parse_ids_loop_unexpected (r : Response) (rest : List Response)
    (ids : List Nat) (hdone : notDone r = true)
    (hid : isIdsResp r = false) (hcons : consumable r = false) :
    parse_ids_loop (r :: rest) ids = ⟨[], Except.error r, rest⟩ := by
  cases r with
  | done tag st => simp [notDone] at hdone
  | ids l => simp [isIdsResp] at hid
  | expunge n => simp [consumable, handle_unilateral] at hcons
  | mailboxData d =>
    cases d <;> first | rfl | simp [consumable, handle_unilateral] at hcons
  | data st c => rfl
  | fetch n attrs => rfl
  | capabilities cs => rfl

theorem parse_capabilities_loop_consumed (r : Response) (rest : List Response)
    (caps : List String) (hcons : consumable r = true) :
    parse_capabilities_loop (r :: rest) caps
      = ⟨(handle_unilateral r).1 ++ (parse_capabilities_loop rest caps).events,
         (parse_capabilities_loop rest caps).result,
         (parse_capabilities_loop rest caps).remaining⟩ := by
  cases r with
  | mailboxData d =>
    cases d <;> first | rfl | simp [consumable, handle_unilateral] at hcons
  | expunge n => rfl
  | _ => simp [consumable, handle_unilateral] at hcons

theorem parse_ids_loop_consumed (r : Response) (rest : List Response)
    (ids : List Nat) (hcons : consumable r = true) :
    parse_ids_loop (r :: rest) ids
      = ⟨(handle_unilateral r).1 ++ (parse_ids_loop rest ids).events,
         (parse_ids_loop rest ids).result,
         (parse_ids_loop rest ids).remaining⟩ := by
  cases r with
  | mailboxData d =>
    cases d <;> first | rfl | simp [consumable, handle_unilateral] at hcons
  | expunge n => rfl
  | _ => simp [consumable, handle_unilateral] at hcons

theorem capabilities_shape (r : Response) (h : isCapabilitiesResp r = true) :
    ∃ cs, r = Response.capabilities cs := by
  cases r <;> simp_all [isCapabilitiesResp]

theorem ids_shape (r : Response) (h : isIdsResp r = true) :
    ∃ cs, r = Response.ids cs := by
  cases r <;> simp_all [isIdsResp]

/-- C6: both aggregate extractors — the capability extractor and the id-set
extractor — abort the whole call at the first record that is neither their
expected command-result shape nor consumed by the unilateral classifier: the
call returns the unexpected-response error carrying that record, the partial
accumulated result is not returned, and the remainder of the stream after the
offending record is left unread. -/
theorem aggregate_abort_on_unexpected :
    (∀ (pre rest : List Response) (bad : Response) (caps : List String),
      (∀ x ∈ pre, isCapabilitiesResp x = true ∨ consumable x = true) →
      notDone bad = true → isCapabilitiesResp bad = false → consumable bad = false →
      ∃ evs, parse_capabilities_loop (pre ++ bad :: rest) caps
        = ⟨evs, Except.error bad, rest⟩)
    ∧ (∀ (pre rest : List Response) (bad : Response) (ids : List Nat),
      (∀ x ∈ pre, isIdsResp x = true ∨ consumable x = true) →
      notDone bad = true → isIdsResp bad = false → consumable bad = false →
      ∃ evs, parse_ids_loop (pre ++ bad :: rest) ids
        = ⟨evs, Except.error bad, rest⟩) := by
  constructor
  · intro pre
    induction pre with
    | nil =>
      intro rest bad caps _ hdone hcap hcons
      exact ⟨[], parse_capabilities_loop_unexpected bad rest caps hdone hcap hcons⟩
    | cons a l ih =>
      intro rest bad caps hpre hdone hcap hcons
      rcases hpre a (by simp) with ha | ha
      · obtain ⟨cs, rfl⟩ := capabilities_shape a ha
        obtain ⟨evs, hevs⟩ := ih rest bad (capInsertAll caps cs)
          (fun x hx => hpre x (by simp [hx])) hdone hcap hcons
        exact ⟨evs, by rw [List.cons_append, parse_capabilities_loop_caps_arm, hevs]⟩
      · obtain ⟨evs, hevs⟩ := ih rest bad caps
          (fun x hx => hpre x (by simp [hx])) hdone hcap hcons
        exact ⟨(handle_unilateral a).1 ++ evs,
          by rw [List.cons_append, parse_capabilities_loop_consumed a _ _ ha, hevs]⟩
  · intro pre
    induction pre with
    | nil =>
      intro rest bad ids _ hdone hid hcons
      exact ⟨[], parse_ids_loop_unexpected bad rest ids hdone hid hcons⟩
    | cons a l ih =>
      intro rest bad ids hpre hdone hid hcons
      rcases hpre a (by simp) with ha | ha
      · obtain ⟨cs, rfl⟩ := ids_shape a ha
        obtain ⟨evs, hevs⟩ := ih rest bad (idInsertAll ids cs)
          (fun x hx => hpre x (by simp [hx])) hdone hid hcons
        exact ⟨evs, by rw [List.cons_append, parse_ids_loop_ids_arm, hevs]⟩
      · obtain ⟨evs, hevs⟩ := ih rest bad ids
          (fun x hx => hpre x (by simp [hx])) hdone hid hcons
        exact ⟨(handle_unilateral a).1 ++ evs,
          by rw [List.cons_append, parse_ids_loop_consumed a _ _ ha, hevs]⟩

/-- C6 witness: `CAPABILITY`, `1 RECENT`, then an unexpected `SEARCH` record
abort the capability extractor leaving the completion marker unread; dually an
unexpected `CAPABILITY` record aborts the id-set extractor. -/
theorem aggregate_abort_on_unexpected_witness :
    (∃ evs, parse_capabilities_loop
        ([Response.capabilities ["IMAP4rev1"], Response.mailboxData (MailboxDatum.recent 1)]
          ++ Response.ids [7] :: [Response.done "t" Status.ok]) []
      = ⟨evs, Except.error (Response.ids [7]), [Response.done "t" Status.ok]⟩)
    ∧ (∃ evs, parse_ids_loop
        ([Response.ids [23, 42], Response.expunge 2]
          ++ Response.capabilities ["X"] :: [Response.done "t" Status.ok]) []
      = ⟨evs, Except.error (Response.capabilities ["X"]), [Response.done "t" Status.ok]⟩) :=
  ⟨aggregate_abort_on_unexpected.1
      [Response.capabilities ["IMAP4rev1"], Response.mailboxData (MailboxDatum.recent 1)]
      [Response.done "t" Status.ok] (Response.ids [7]) []
      (by decide) (by decide) (by decide) (by decide),
   aggregate_abort_on_unexpected.2
      [Response.ids [23, 42], Response.expunge 2]
      [Response.done "t" Status.ok] (Response.capabilities ["X"]) []
      (by decide) (by decide) (by decide) (by decide)⟩

/-! Mailbox-state accumulation: which records abort the call. -/

theorem pml_data_ok_arm (c : Option ResponseCode) (rest : List Response) (mb : Mailbox) :
    parse_mailbox_loop (Response.data Status.ok c :: rest) mb
      = parse_mailbox_loop rest (mailboxApplyCode mb c) := rfl

theorem pml_status_arm (m : String) (s : List StatusAttribute) (rest : List Response)
    (mb : Mailbox) :
    parse_mailbox_loop (Response.mailboxData (MailboxDatum.status m s) :: rest) mb
      = ⟨UnsolicitedResponse.status m [] :: (parse_mailbox_loop rest mb).events,
         (parse_mailbox_loop rest mb).result, (parse_mailbox_loop rest mb).remaining⟩ := rfl

theorem pml_expunge_arm (n : Nat) (rest : List Response) (mb : Mailbox) :
    parse_mailbox_loop (Response.expunge n :: rest) mb
      = ⟨UnsolicitedResponse.expunge n :: (parse_mailbox_loop rest mb).events,
         (parse_mailbox_loop rest mb).result, (parse_mailbox_loop rest mb).remaining⟩ := rfl

theorem pml_mexists_arm (e : Nat) (rest : List Response) (mb : Mailbox) :
    parse_mailbox_loop (Response.mailboxData (MailboxDatum.mexists e) :: rest) mb
      = parse_mailbox_loop rest { mb with mexists := e } := rfl

theorem pml_recent_arm (n : Nat) (rest : List Response) (mb : Mailbox) :
    parse_mailbox_loop (Response.mailboxData (MailboxDatum.recent n) :: rest) mb
      = parse_mailbox_loop rest { mb with recent := n } := rfl

theorem pml_flags_arm (fs : List String) (rest : List Response) (mb : Mailbox) :
    parse_mailbox_loop (Response.mailboxData (MailboxDatum.flags fs) :: rest) mb
      = parse_mailbox_loop rest { mb with flags := mb.flags ++ fs.map Flag.ofString } := rfl

theorem pml_list_arm (fs : List String) (d : Option String) (n : String)
    (rest : List Response) (mb : Mailbox) :
    parse_mailbox_loop (Response.mailboxData (MailboxDatum.list fs d n) :: rest) mb
      = parse_mailbox_loop rest mb := rfl

theorem parse_mailbox_unexpected_arm (r : Response) (rest : List Response) (mb : Mailbox)
    (hdone : notDone r = true) (hdata : isDataResp r = false)
    (hmd : isMailboxDataResp r = false) (hexp : isExpungeResp r = false) :
    parse_mailbox_loop (r :: rest) mb
      = ⟨[], Except.error (MailboxError.unexpected r), rest⟩ := by
  cases r with
  | done tag st => simp [notDone] at hdone
  | data st c => simp [isDataResp] at hdata
  | mailboxData d => simp [isMailboxDataResp] at hmd
  | expunge n => simp [isExpungeResp] at hexp
  | fetch n attrs => rfl
  | capabilities cs => rfl
  | ids l => rfl

/-- C3 counterexample: the claim says a record that is not a `DataStatus`
record, not an `Exists`/`Recent`/`Flags` mailbox datum, not a `Status` mailbox
datum and not an `Expunge` record makes `parse_mailbox` fail — but a `List`
mailbox datum, which is none of those, is silently ignored by the source's
`MailboxDatum::List {{ .. }} => {{}}` arm: on the concrete stream consisting of a
`LIST` record and the completion marker, the call succeeds with the default
mailbox and nothing is sent to the sink. -/
theorem mailbox_list_datum_not_error :
    parse_mailbox [Response.mailboxData (MailboxDatum.list [] none "INBOX"),
        Response.done "a2" Status.ok]
      = ⟨[], Except.ok Mailbox.default, []⟩ := rfl

/-- C3 (amended): during mailbox-state accumulation, every record before the
terminal marker that is not a `DataStatus` record, not an
`Exists`/`Recent`/`Flags`/`List`/`Status` mailbox datum, and not an `Expunge`
record makes the whole call fail with an unexpected-response error carrying
that record (the remainder of the stream is left unread and no accumulated
state is returned). -/
theorem mailbox_unexpected_aborts :
    ∀ (pre rest : List Response) (bad : Response) (mb : Mailbox),
      (∀ x ∈ pre, mailboxHandles x = true) →
      notDone bad = true → isDataResp bad = false →
      isMailboxDataResp bad = false → isExpungeResp bad = false →
      ∃ evs, parse_mailbox_loop (pre ++ bad :: rest) mb
        = ⟨evs, Except.error (MailboxError.unexpected bad), rest⟩ := by
  intro pre
  induction pre with
  | nil =>
    intro rest bad mb _ hdone hdata hmd hexp
    exact ⟨[], parse_mailbox_unexpected_arm bad rest mb hdone hdata hmd hexp⟩
  | cons a l ih =>
    intro rest bad mb hpre hdone hdata hmd hexp
    have ha := hpre a (by simp)
    have hl : ∀ x ∈ l, mailboxHandles x = true := fun x hx => hpre x (by simp [hx])
    cases a with
    | data st c =>
      cases st with
      | ok =>
        obtain ⟨evs, hevs⟩ := ih rest bad (mailboxApplyCode mb c) hl hdone hdata hmd hexp
        exact ⟨evs, by rw [List.cons_append, pml_data_ok_arm, hevs]⟩
      | no => simp [mailboxHandles] at ha
      | bad => simp [mailboxHandles] at ha
    | mailboxData d =>
      cases d with
      | status m s =>
        obtain ⟨evs, hevs⟩ := ih rest bad mb hl hdone hdata hmd hexp
        exact ⟨UnsolicitedResponse.status m [] :: evs,
          by rw [List.cons_append, pml_status_arm, hevs]⟩
      | mexists e =>
        obtain ⟨evs, hevs⟩ := ih rest bad { mb with mexists := e } hl hdone hdata hmd hexp
        exact ⟨evs, by rw [List.cons_append, pml_mexists_arm, hevs]⟩
      | recent n =>
        obtain ⟨evs, hevs⟩ := ih rest bad { mb with recent := n } hl hdone hdata hmd hexp
        exact ⟨evs, by rw [List.cons_append, pml_recent_arm, hevs]⟩
      | flags fs =>
        obtain ⟨evs, hevs⟩ :=
          ih rest bad { mb with flags := mb.flags ++ fs.map Flag.ofString }
            hl hdone hdata hmd hexp
        exact ⟨evs, by rw [List.cons_append, pml_flags_arm, hevs]⟩
      | list fs dlm n =>
        obtain ⟨evs, hevs⟩ := ih rest bad mb hl hdone hdata hmd hexp
        exact ⟨evs, by rw [List.cons_append, pml_list_arm, hevs]⟩
    | expunge n =>
      obtain ⟨evs, hevs⟩ := ih rest bad mb hl hdone hdata hmd hexp
      exact ⟨UnsolicitedResponse.expunge n :: evs,
        by rw [List.cons_append, pml_expunge_arm, hevs]⟩
    | done tag st => simp [mailboxHandles] at ha
    | fetch n attrs => simp [mailboxHandles] at ha
    | capabilities cs => simp [mailboxHandles] at ha
    | ids is2 => simp [mailboxHandles] at ha

/-- C3 witness: an `OK [UIDVALIDITY 1]` status line and a `4 EXISTS` datum
followed by an unexpected `FETCH` record abort the call, leaving the completion
marker unread. -/
theorem mailbox_unexpected_aborts_witness :
    ∃ evs, parse_mailbox_loop
        ([Response.data Status.ok (some (ResponseCode.uidValidity 1)),
          Response.mailboxData (MailboxDatum.mexists 4)]
          ++ Response.fetch 9 [] :: [Response.done "t" Status.ok]) Mailbox.default
      = ⟨evs, Except.error (MailboxError.unexpected (Response.fetch 9 [])),
          [Response.done "t" Status.ok]⟩ :=
  mailbox_unexpected_aborts
    [Response.data Status.ok (some (ResponseCode.uidValidity 1)),
     Response.mailboxData (MailboxDatum.mexists 4)]
    [Response.done "t" Status.ok] (Response.fetch 9 []) Mailbox.default
    (by decide) (by decide) (by decide) (by decide) (by decide)

/-! Capability-set accumulation: case-insensitivity and no duplicates. -/

theorem capInsert_of_any_true (caps : List String) (c : String)
    (h : caps.any (fun x => capNorm x = capNorm c) = true) :
    capInsert caps c = caps := by
  unfold capInsert
  rw [if_pos h]

theorem capInsert_of_any_false (caps : List String) (c : String)
    (h : ¬ caps.any (fun x => capNorm x = capNorm c) = true) :
    capInsert caps c = caps ++ [c] := by
  unfold capInsert
  rw [if_neg h]

theorem capInsert_mem_norm (caps : List String) (c : String) :
    (capInsert caps c).any (fun x => capNorm x = capNorm c) = true := by
  by_cases h : caps.any (fun x => capNorm x = capNorm c) = true
  · rw [capInsert_of_any_true caps c h]
    exact h
  · rw [capInsert_of_any_false caps c h]
    simp

theorem capInsert_case_insensitive (caps : List String) (c c' : String)
    (h : capNorm c = capNorm c') :
    capInsertAll caps [c, c'] = capInsert caps c := by
  show capInsert (capInsert caps c) c' = capInsert caps c
  refine capInsert_of_any_true _ _ ?_
  rw [← h]
  exact capInsert_mem_norm caps c

theorem capInsert_norm_nodup (caps : List String) (c : String)
    (h : (caps.map capNorm).Nodup) : ((capInsert caps c).map capNorm).Nodup := by
  by_cases ha : caps.any (fun x => capNorm x = capNorm c) = true
  · rw [capInsert_of_any_true caps c ha]
    exact h
  · rw [capInsert_of_any_false caps c ha]
    rw [List.map_append]
    refine List.Nodup.append h (by simp) ?_
    intro y hy hy'
    simp only [List.map_cons, List.map_nil, List.mem_cons, List.not_mem_nil,
      or_false] at hy'
    subst hy'
    obtain ⟨x, hx, hxe⟩ := List.mem_map.mp hy
    exact ha (List.any_eq_true.mpr ⟨x, hx, by simp [hxe]⟩)

theorem capInsertAll_norm_nodup (cs : List String) (caps : List String)
    (h : (caps.map capNorm).Nodup) : ((capInsertAll caps cs).map capNorm).Nodup := by
  induction cs generalizing caps with
  | nil => exact h
  | cons c cs ih => exact ih (capInsert caps c) (capInsert_norm_nodup caps c h)

/-- C4: capability accumulation is idempotent and case-insensitive — two
announced tokens differing only in letter case insert as one capability, the
accumulated set never holds two tokens with the same normal form, and
announcing `IMAP4REV1` then `IMAP4rev1` yields a set of size 1. -/
theorem capabilities_case_insensitive_idempotent :
    (∀ (caps : List String) (c c' : String), capNorm c = capNorm c' →
      capInsertAll caps [c, c'] = capInsert caps c)
    ∧ (∀ cs : List String, ((capInsertAll [] cs).map capNorm).Nodup)
    ∧ (parse_capabilities [Response.capabilities ["IMAP4REV1"],
          Response.capabilities ["IMAP4rev1"], Response.done "t" Status.ok]).result
        = Except.ok ["IMAP4REV1"]
    ∧ (capInsertAll (capInsertAll [] ["IMAP4REV1"]) ["IMAP4rev1"]).length = 1 :=
  ⟨capInsert_case_insensitive,
   fun cs => capInsertAll_norm_nodup cs [] (by simp),
   by decide, by decide⟩

/-- C4 witness: inserting `STARTTLS` then `starttls` is one insertion. -/
theorem capabilities_case_insensitive_idempotent_witness :
    capInsertAll [] ["STARTTLS", "starttls"] = capInsert [] "STARTTLS" :=
  capabilities_case_insensitive_idempotent.1 [] "STARTTLS" "starttls" (by decide)

/-! The authentication continuation parser. -/

theorem authPayload_eq_some_iff (s : List Char) : ∀ p : List Char,
    authPayload s = some p ↔ ('\n' ∉ p ∧ ∃ rest, s = p ++ '\r' :: '\n' :: rest) := by
  induction s with
  | nil =>
    intro p
    constructor
    · intro h
      simp [authPayload] at h
    · rintro ⟨-, rest, heq⟩
      exact absurd heq (by simp)
  | cons c s ih =>
    intro p
    unfold authPayload
    by_cases hc1 : c = '\n'
    · rw [if_pos hc1]
      subst hc1
      constructor
      · intro h
        cases h
      · rintro ⟨hnp, rest, heq⟩
        exfalso
        cases p with
        | nil =>
          rw [List.nil_append] at heq
          injection heq with h1 _
          exact absurd h1 (by decide)
        | cons q qs =>
          rw [List.cons_append] at heq
          injection heq with h1 _
          exact hnp (by rw [← h1]; exact List.mem_cons_self _ _)
    · rw [if_neg hc1]
      by_cases hc2 : c = '\r' ∧ s.head? = some '\n'
      · rw [if_pos hc2]
        obtain ⟨hr, hh⟩ := hc2
        subst hr
        obtain ⟨t, rfl⟩ : ∃ t, s = '\n' :: t := by
          cases s with
          | nil => simp at hh
          | cons a s' =>
            simp at hh
            exact ⟨s', by rw [hh]⟩
        constructor
        · intro h
          injection h with h1
          subst h1
          exact ⟨by simp, t, rfl⟩
        · rintro ⟨hnp, rest, heq⟩
          cases p with
          | nil => rfl
          | cons q qs =>
            exfalso
            rw [List.cons_append] at heq
            injection heq with h1 h2
            cases qs with
            | nil =>
              rw [List.nil_append] at h2
              injection h2 with h3 _
              exact absurd h3 (by decide)
            | cons q2 qs2 =>
              rw [List.cons_append] at h2
              injection h2 with h3 _
              refine hnp ?_
              rw [List.mem_cons]
              right
              rw [← h3]
              exact List.mem_cons_self _ _
      · rw [if_neg hc2]
        constructor
        · intro h
          obtain ⟨pp, hpp, rfl⟩ : ∃ pp, authPayload s = some pp ∧ p = c :: pp := by
            cases has : authPayload s with
            | none => rw [has] at h; simp at h
            | some x =>
              rw [has] at h
              simp at h
              exact ⟨x, rfl, h.symm⟩
          obtain ⟨hnp', rest, rfl⟩ := (ih pp).mp hpp
          refine ⟨?_, rest, by rw [List.cons_append]⟩
          rw [List.mem_cons]
          rintro (h1 | h1)
          · exact hc1 h1.symm
          · exact hnp' h1
        · rintro ⟨hnp, rest, heq⟩
          cases p with
          | nil =>
            exfalso
            rw [List.nil_append] at heq
            injection heq with h1 h2
            exact hc2 ⟨h1, by rw [h2]; rfl⟩
          | cons q qs =>
            rw [List.cons_append] at heq
            injection heq with h1 h2
            have hq : authPayload s = some qs :=
              (ih qs).mpr ⟨fun hm => hnp (List.mem_cons.mpr (Or.inr hm)), rest, h2⟩
            rw [hq]
            simp [h1]

theorem parse_auth_chars_eq_some_iff (l p : List Char) :
    parse_auth_chars l = some p ↔
      ('\n' ∉ p ∧ ∃ rest, l = '+' :: ' ' :: (p ++ '\r' :: '\n' :: rest)) := by
  cases l with
  | nil =>
    constructor
    · intro h; cases h
    · rintro ⟨-, rest, heq⟩; cases heq
  | cons c1 t =>
    cases t with
    | nil =>
      constructor
      · intro h; cases h
      · rintro ⟨-, rest, heq⟩
        injection heq with _ h1
        cases h1
    | cons c2 rest =>
      show (if c1 = '+' ∧ c2 = ' ' then authPayload rest else none) = some p ↔ _
      by_cases hpm : c1 = '+' ∧ c2 = ' '
      · rw [if_pos hpm]
        obtain ⟨rfl, rfl⟩ := hpm
        rw [authPayload_eq_some_iff]
        constructor
        · rintro ⟨hnp, r2, rfl⟩
          exact ⟨hnp, r2, rfl⟩
        · rintro ⟨hnp, r2, heq⟩
          injection heq with _ h1
          injection h1 with _ h2
          exact ⟨hnp, r2, h2⟩
      · rw [if_neg hpm]
        constructor
        · intro h; cases h
        · rintro ⟨-, r2, heq⟩
          injection heq with h1 h2
          injection h2 with h2a _
          exact absurd ⟨h1, h2a⟩ hpm

theorem auth_response_ok_iff (line p : String) :
    parse_authenticate_response line = Except.ok p ↔
      ('\n' ∉ p.data ∧ ∃ rest : List Char,
        line.data = '+' :: ' ' :: (p.data ++ '\r' :: '\n' :: rest)) := by
  unfold parse_authenticate_response
  cases hpc : parse_auth_chars line.data with
  | none =>
    constructor
    · intro h; cases h
    · intro hr
      have h2 := (parse_auth_chars_eq_some_iff line.data p.data).mpr hr
      rw [hpc] at h2
      cases h2
  | some ap =>
    constructor
    · intro h
      have hap2 : (⟨ap⟩ : String) = p := by injection h
      subst hap2
      exact (parse_auth_chars_eq_some_iff line.data ap).mp hpc
    · intro hr
      have h2 := (parse_auth_chars_eq_some_iff line.data p.data).mpr hr
      rw [hpc] at h2
      injection h2 with h3
      rw [h3]

theorem auth_response_error_or_ok (line : String) :
    parse_authenticate_response line = Except.error line ∨
    ∃ q : String, parse_authenticate_response line = Except.ok q := by
  unfold parse_authenticate_response
  cases hpc : parse_auth_chars line.data with
  | none => exact Or.inl rfl
  | some ap => exact Or.inr ⟨⟨ap⟩, rfl⟩

theorem grammar_line_ends_lf (line payload : String)
    (h : continuationRequestGrammar line payload) :
    line.data.reverse.head? = some '\n' := by
  unfold continuationRequestGrammar at h
  rw [h, String.data_append, String.data_append,
    show ("\r\n" : String).data = ['\r', '\n'] from rfl]
  simp [List.reverse_append]

/-- C7 counterexample: the claim says `Ok` is returned iff the line matches
the grammar `+ <payload>\r\n`; but on the input `"+ a\r\nx"`, which matches
that grammar for no payload (it does not end in CRLF), the function returns
`Ok "a"`: the source's regex `^\+ (.*)\r\n` is anchored only at the start,
so bytes after the first CRLF are ignored. -/
theorem auth_response_trailing_bytes :
    parse_authenticate_response "+ a\r\nx" = Except.ok "a"
    ∧ ¬ ∃ payload : String, continuationRequestGrammar "+ a\r\nx" payload := by
  constructor
  · decide
  · rintro ⟨payload, hp⟩
    have h2 := grammar_line_ends_lf _ _ hp
    rw [show ("+ a\r\nx" : String).data.reverse.head? = some 'x' from by decide] at h2
    injection h2 with h3
    exact absurd h3 (by decide)

/-- C7 (amended): `parse_authenticate_response` returns `Ok payload` iff the
input starts with `+ <payload>\r\n`, the payload being the text between the
literal `+ ` and the first line feed, which must be immediately preceded by a
carriage return (bytes after that CRLF are ignored, the source's regex being
anchored only at the start); on every input not of that form it returns an
Authentication parse error carrying the offending line. -/
theorem auth_response_characterization (line p : String) :
    (parse_authenticate_response line = Except.ok p ↔
      ('\n' ∉ p.data ∧ ∃ rest : List Char,
        line.data = '+' :: ' ' :: (p.data ++ '\r' :: '\n' :: rest)))
    ∧ ((∀ q : String, ¬ ('\n' ∉ q.data ∧ ∃ rest : List Char,
          line.data = '+' :: ' ' :: (q.data ++ '\r' :: '\n' :: rest))) →
        parse_authenticate_response line = Except.error line) := by
  refine ⟨auth_response_ok_iff line p, fun hno => ?_⟩
  rcases auth_response_error_or_ok line with h | ⟨q, hq⟩
  · exact h
  · exact absurd ((auth_response_ok_iff line q).mp hq) (hno q)

/-- C7 witness: a continuation line with a base64 payload is accepted with
that payload, and a line missing the space after `+` is rejected with an error
carrying the line. -/
theorem auth_response_characterization_witness :
    parse_authenticate_response "+ dXNlcg==\r\n" = Except.ok "dXNlcg=="
    ∧ parse_authenticate_response "+a" = Except.error "+a" :=
  ⟨(auth_response_characterization "+ dXNlcg==\r\n" "dXNlcg==").1.mpr
      ⟨by decide, [], by decide⟩,
   (auth_response_characterization "+a" "x").2 (by
      rintro q ⟨-, r, heq⟩
      injection heq with _ h1
      injection h1 with h2 _
      exact absurd h2 (by decide))⟩

end AsyncImap
